import Mathlib

/-!
# Verification of the deckkit-feeds ingestion pipeline

A shallow embedding of the feed synchronization and content-addressing
pipeline of this repository, together with proofs of the specified
properties.

The repository contains three variants of the ingestion script:

* `src/scripts/ingest-rss.js` — the filesystem backend (namespace `Ingest`);
* the first document of `src/unnamed/part_000` — an older filesystem
  variant whose title delimiter is the mojibake byte sequence `" â€” "`
  (namespace `Legacy`);
* the second document of `src/unnamed/part_000` — the object-storage (R2)
  backend, sharing the same helpers (namespace `R2`).

JavaScript optional values are modelled by `Option`; JavaScript truthiness
of strings (`undefined`/`""` are falsy) is modelled explicitly.  Machine
arithmetic inside SHA-256 is `Nat` with explicit reduction modulo `2^32`.
HTML bodies are represented at the level of parsed markup tokens, because
the HTML parser belongs to the `sanitize-html` library, not to this
repository; the sanitizer's filtering logic over those tokens is modelled
from the specification.  Title strings, which the code never parses as
HTML, stay plain strings.
-/

namespace Ingest

/-! ## JavaScript value helpers -/

/-- JavaScript truthiness of an optional string: `undefined` and `""` are
falsy, every other string is truthy. -/
def truthyS : Option String → Bool
  | none => false
  | some s => s ≠ ""

/-- The JavaScript expression `a || b` on optional strings. -/
def jsOrS (a b : Option String) : Option String :=
  if truthyS a then a else b

/-- The JavaScript expression `a || b` where `b` is a string literal
(e.g. `item.title || 'No Title'`). -/
def jsOrStr (a : Option String) (b : String) : String :=
  match a with
  | none => b
  | some s => if s = "" then b else s

/-- The JavaScript expression `a || b` on numbers, where `a` may be `NaN`
(modelled `none`): `NaN` and `0` are falsy. -/
def jsOrNum (a : Option Int) (b : Int) : Int :=
  match a with
  | none => b
  | some v => if v = 0 then b else v

/-! ## String splitting

`String.prototype.split` with a non-empty string separator, scanning left
to right over the character sequence.  Implemented structurally on a fuel
argument (the fuel is the length of the remaining input, which suffices
because each step consumes at least one character). -/

/-- One left-to-right scan of `split`: `acc` holds the current segment
reversed; on a separator match the segment is emitted and the separator
consumed. -/
def splitFuel (sep : List Char) : Nat → List Char → List Char →
    List (List Char)
  | 0, rest, acc => [acc.reverse ++ rest]
  | _ + 1, [], acc => [acc.reverse]
  | fuel + 1, c :: rest, acc =>
    if (c :: rest).take sep.length = sep then
      acc.reverse :: splitFuel sep fuel ((c :: rest).drop sep.length) []
    else
      splitFuel sep fuel rest (c :: acc)

/-- `title.split(sep)` for a non-empty separator. -/
def jsSplit (s sep : String) : List String :=
  (splitFuel sep.data (s.data.length + 1) s.data []).map String.mk

/-! ## Title formatting (`wrapTitle`, src/scripts/ingest-rss.js lines 29–34)

```js
function wrapTitle(title, link) {
    const parts = title.split(" — ");
    let html = `<h1><a href="${link}" target="_blank">${parts[0]}</a></h1>`;
    for (let i = 1; i < parts.length; i++) html += `<h2>${parts[i]}</h2>`;
    return html;
}
```
-/

/-- The `<h1>` template literal of `wrapTitle`. -/
def h1Of (link first : String) : String :=
  "<h1><a href=\"" ++ link ++ "\" target=\"_blank\">" ++ first ++ "</a></h1>"

/-- The `<h2>` template literal of `wrapTitle`. -/
def h2Of (seg : String) : String := "<h2>" ++ seg ++ "</h2>"

/-- The accumulation loop of `wrapTitle` over the remaining segments. -/
def h2Loop (html : String) : List String → String
  | [] => html
  | seg :: rest => h2Loop (html ++ h2Of seg) rest

/-- `wrapTitle` of src/scripts/ingest-rss.js: split on the em-dash
delimiter `" — "`, first segment into a linked `<h1>`, the rest into
`<h2>`s. -/
def wrapTitle (title link : String) : String :=
  match jsSplit title " — " with
  | [] => h1Of link ""
  | first :: rest => h2Loop (h1Of link first) rest

end Ingest

namespace Legacy

/-- `wrapTitle` of the first document of src/unnamed/part_000 (lines
29–34): identical template, but the split delimiter is the mojibake byte
sequence `" â€” "` (the UTF-8 bytes of an em dash re-decoded as cp1252),
not the em dash `" — "`. -/
def wrapTitle (title link : String) : String :=
  match Ingest.jsSplit title " â€” " with
  | [] => Ingest.h1Of link ""
  | first :: rest => Ingest.h2Loop (Ingest.h1Of link first) rest

end Legacy

namespace Ingest

/-! ## SHA-256 (`getHash`, src/scripts/ingest-rss.js lines 20–22)

```js
function getHash(text) {
    return crypto.createHash('sha256').update(text).digest('hex').substring(0, 12);
}
```

`crypto.createHash('sha256')` is Node's SHA-256 over the UTF-8 bytes of
the input; the algorithm (FIPS 180-4) is implemented here directly over
`Nat` with explicit reduction modulo `2^32`. -/

/-- `2^32`, the word modulus of SHA-256. -/
def M32 : Nat := 4294967296

/-- Right rotation of a 32-bit word. -/
def rotr (n x : Nat) : Nat := ((x >>> n) ||| (x <<< (32 - n))) % M32

/-- The 64 SHA-256 round constants. -/
def K256 : List Nat :=
  [1116352408, 1899447441, 3049323471, 3921009573, 961987163, 1508970993, 2453635748, 2870763221,
   3624381080, 310598401, 607225278, 1426881987, 1925078388, 2162078206, 2614888103, 3248222580,
   3835390401, 4022224774, 264347078, 604807628, 770255983, 1249150122, 1555081692, 1996064986,
   2554220882, 2821834349, 2952996808, 3210313671, 3336571891, 3584528711, 113926993, 338241895,
   666307205, 773529912, 1294757372, 1396182291, 1695183700, 1986661051, 2177026350, 2456956037,
   2730485921, 2820302411, 3259730800, 3345764771, 3516065817, 3600352804, 4094571909, 275423344,
   430227734, 506948616, 659060556, 883997877, 958139571, 1322822218, 1537002063, 1747873779,
   1955562222, 2024104815, 2227730452, 2361852424, 2428436474, 2756734187, 3204031479, 3329325298]

/-- The eight 32-bit words of the SHA-256 chaining state. -/
structure Hash8 where
  a : Nat
  b : Nat
  c : Nat
  d : Nat
  e : Nat
  f : Nat
  g : Nat
  h : Nat
  deriving DecidableEq, Repr

/-- The SHA-256 initial hash value. -/
def initH : Hash8 :=
  ⟨1779033703, 3144134277, 1013904242, 2773480762, 1359893119, 2600822924, 528734635, 1541459225⟩

/-- One step of the message-schedule extension; `ws` holds the schedule so
far in reverse (most recent word first). -/
def scheduleStep (ws : List Nat) : List Nat :=
  let w2 := ws.getD 1 0
  let w7 := ws.getD 6 0
  let w15 := ws.getD 14 0
  let w16 := ws.getD 15 0
  let s0 := (rotr 7 w15) ^^^ (rotr 18 w15) ^^^ (w15 >>> 3)
  let s1 := (rotr 17 w2) ^^^ (rotr 19 w2) ^^^ (w2 >>> 10)
  ((w16 + s0 + w7 + s1) % M32) :: ws

/-- The full 64-word message schedule of a block of 16 words. -/
def schedule (block : List Nat) : List Nat :=
  ((List.range 48).foldl (fun ws _ => scheduleStep ws) block.reverse).reverse

/-- One SHA-256 compression round with key word `k` and schedule word `w`. -/
def round256 (st : Hash8) (k w : Nat) : Hash8 :=
  let s1 := (rotr 6 st.e) ^^^ (rotr 11 st.e) ^^^ (rotr 25 st.e)
  let ch := (st.e &&& st.f) ^^^ ((st.e ^^^ (M32 - 1)) &&& st.g)
  let temp1 := (st.h + s1 + ch + k + w) % M32
  let s0 := (rotr 2 st.a) ^^^ (rotr 13 st.a) ^^^ (rotr 22 st.a)
  let maj := (st.a &&& st.b) ^^^ (st.a &&& st.c) ^^^ (st.b &&& st.c)
  let temp2 := (s0 + maj) % M32
  ⟨(temp1 + temp2) % M32, st.a, st.b, st.c, (st.d + temp1) % M32, st.e, st.f, st.g⟩

/-- Compression of a single 16-word block into the chaining state. -/
def compress (st : Hash8) (block : List Nat) : Hash8 :=
  let t := ((schedule block).zip K256).foldl (fun s p => round256 s p.2 p.1) st
  ⟨(st.a + t.a) % M32, (st.b + t.b) % M32, (st.c + t.c) % M32, (st.d + t.d) % M32,
   (st.e + t.e) % M32, (st.f + t.f) % M32, (st.g + t.g) % M32, (st.h + t.h) % M32⟩

/-- The big-endian 8-byte encoding of the message bit length. -/
def be8 (n : Nat) : List Nat :=
  [(n >>> 56) % 256, (n >>> 48) % 256, (n >>> 40) % 256, (n >>> 32) % 256,
   (n >>> 24) % 256, (n >>> 16) % 256, (n >>> 8) % 256, n % 256]

/-- SHA-256 padding: append `0x80`, zeros to 56 mod 64, then the bit
length. -/
def padMsg (msg : List Nat) : List Nat :=
  let len := msg.length
  let zeros := (119 - len % 64) % 64
  msg ++ 128 :: List.replicate zeros 0 ++ be8 (8 * len)

/-- Big-endian packing of bytes into 32-bit words, four at a time. -/
def bytesToWords : List Nat → List Nat
  | b0 :: b1 :: b2 :: b3 :: rest =>
    ((b0 <<< 24) ||| (b1 <<< 16) ||| (b2 <<< 8) ||| b3) :: bytesToWords rest
  | _ => []

/-- Grouping of a word list into 16-word blocks (fueled, structural). -/
def chunk16 : Nat → List Nat → List (List Nat)
  | 0, _ => []
  | _ + 1, [] => []
  | fuel + 1, ws => ws.take 16 :: chunk16 fuel (ws.drop 16)

/-- Big-endian bytes of a 32-bit word. -/
def wordBytes (w : Nat) : List Nat :=
  [(w >>> 24) % 256, (w >>> 16) % 256, (w >>> 8) % 256, w % 256]

/-- The 32 digest bytes of a final chaining state. -/
def digestBytes (st : Hash8) : List Nat :=
  wordBytes st.a ++ wordBytes st.b ++ wordBytes st.c ++ wordBytes st.d ++
  wordBytes st.e ++ wordBytes st.f ++ wordBytes st.g ++ wordBytes st.h

/-- SHA-256 of a byte sequence. -/
def sha256 (msg : List Nat) : List Nat :=
  let ws := bytesToWords (padMsg msg)
  digestBytes ((chunk16 ws.length ws).foldl compress initH)

/-- UTF-8 encoding of one character. -/
def utf8Char (c : Char) : List Nat :=
  let n := c.toNat
  if n < 128 then [n]
  else if n < 2048 then
    [192 ||| (n >>> 6), 128 ||| (n &&& 63)]
  else if n < 65536 then
    [224 ||| (n >>> 12), 128 ||| ((n >>> 6) &&& 63), 128 ||| (n &&& 63)]
  else
    [240 ||| (n >>> 18), 128 ||| ((n >>> 12) &&& 63),
     128 ||| ((n >>> 6) &&& 63), 128 ||| (n &&& 63)]

/-- UTF-8 encoding of a string (what `hash.update(text)` digests). -/
def utf8 (s : String) : List Nat := s.data.flatMap utf8Char

/-- The lowercase hexadecimal digit of a nibble. -/
def hexDigit (n : Nat) : Char :=
  if n < 10 then Char.ofNat (48 + n) else Char.ofNat (87 + n)

/-- The two lowercase hex characters of a byte. -/
def byteHex (b : Nat) : List Char :=
  [hexDigit ((b >>> 4) % 16), hexDigit (b % 16)]

/-- The lowercase hex rendering of a byte sequence (`digest('hex')`). -/
def hexChars (bs : List Nat) : List Char := bs.flatMap byteHex

/-- `getHash` of src/scripts/ingest-rss.js: the first 12 characters of
the lowercase hex SHA-256 digest of the UTF-8 bytes of the input. -/
def getHash (text : String) : String :=
  String.mk ((hexChars (sha256 (utf8 text))).take 12)

end Ingest

namespace Ingest

/-! ## HTML sanitization (`cleanHtml`, src/scripts/ingest-rss.js lines 17–27)

```js
const ALLOWED_TAGS = ["h1", "h2", "h3", "h4", "h5", "h6", "p", "ul", "li",
                      "strong", "em", "a", "br", "div", "img", "span"];
const ALLOWED_ATTRIBUTES = { "a": ["href", "rel", "target"],
  "img": ["loading", "src", "alt", "title"], "span": ["class", "style"] };
function cleanHtml(html) {
    if (!html) return '';
    return sanitizeHtml(html, { allowedTags: ALLOWED_TAGS, allowedAttributes: ALLOWED_ATTRIBUTES });
}
```

HTML bodies are represented as sequences of parsed markup tokens; the
parse step belongs to the `sanitize-html` library and is not part of this
repository, so the sanitizer's filtering is modelled over tokens. -/

/-- One HTML attribute, name and value. -/
structure Attr where
  name : String
  value : String
  deriving DecidableEq, Repr

/-- A parsed piece of HTML markup: character data, an opening tag with
its attributes, or a closing tag. -/
inductive HToken where
  | text (s : String)
  | tagOpen (tag : String) (attrs : List Attr)
  | tagClose (tag : String)
  deriving DecidableEq, Repr

/-- `ALLOWED_TAGS` of src/scripts/ingest-rss.js line 17. -/
def ALLOWED_TAGS : List String :=
  ["h1", "h2", "h3", "h4", "h5", "h6", "p", "ul", "li", "strong", "em",
   "a", "br", "div", "img", "span"]

/-- `ALLOWED_ATTRIBUTES` of src/scripts/ingest-rss.js line 18. -/
def ALLOWED_ATTRIBUTES : List (String × List String) :=
  [("a", ["href", "rel", "target"]),
   ("img", ["loading", "src", "alt", "title"]),
   ("span", ["class", "style"])]

/-- The attribute allow-list of one tag (no entry means no attributes). -/
def allowedAttrsFor (t : String) : List String :=
  match ALLOWED_ATTRIBUTES.lookup t with
  | some l => l
  | none => []

/-- Modelled from the spec: the filtering step of the `sanitize-html`
library (the library is not part of this repository), applied with the
repository's `ALLOWED_TAGS`/`ALLOWED_ATTRIBUTES` configuration — "removes
all markup outside a fixed allow-list of tags … and a fixed allow-list of
attributes per tag": tags outside the allow-list are dropped, kept tags
keep only their allow-listed attributes, character data is kept. -/
def sanitizeToks (ts : List HToken) : List HToken :=
  ts.filterMap fun tk =>
    match tk with
    | .text s => some (.text s)
    | .tagOpen t attrs =>
      if t ∈ ALLOWED_TAGS then
        some (.tagOpen t (attrs.filter (fun ab => ab.name ∈ allowedAttrsFor t)))
      else none
    | .tagClose t => if t ∈ ALLOWED_TAGS then some (.tagClose t) else none

/-- Truthiness of an optional HTML body at the token level: `undefined`
and the empty string (no tokens) are falsy. -/
def truthyT : Option (List HToken) → Bool
  | none => false
  | some ts => !ts.isEmpty

/-- The JavaScript expression `a || b` on optional HTML bodies. -/
def jsOrT (a b : Option (List HToken)) : Option (List HToken) :=
  if truthyT a then a else b

/-- `cleanHtml` of src/scripts/ingest-rss.js lines 24–27: absent or empty
input yields the empty output, otherwise the sanitizer runs with the
repository's allow-lists. -/
def cleanHtml (html : Option (List HToken)) : List HToken :=
  match html with
  | none => []
  | some ts => if ts.isEmpty then [] else sanitizeToks ts

/-! ## Items and `prettifyItem` (src/scripts/ingest-rss.js lines 48–54) -/

/-- A raw feed entry as produced by `rss-parser`: every field may be
absent.  The four body candidates are HTML. -/
structure FeedItem where
  guid : Option String
  title : Option String
  link : Option String
  pubDate : Option String
  contentEncoded : Option (List HToken)
  content : Option (List HToken)
  summary : Option (List HToken)
  description : Option (List HToken)
  deriving DecidableEq, Repr

/-- The object literal built in `main` (src/scripts/ingest-rss.js lines
100–107) before `prettifyItem` runs. -/
structure RawDoc where
  guid : String
  title : Option String
  link : Option String
  pubDate : Option String
  description : Option (List HToken)
  timestamp : Int
  deriving Repr

/-- The persisted item document after `prettifyItem`. -/
structure ProcessedItem where
  guid : String
  title : String
  link : Option String
  pubDate : Option String
  description : List HToken
  timestamp : Int
  source : String
  category : String
  deriving DecidableEq, Repr

/-- `prettifyItem` of src/scripts/ingest-rss.js lines 48–54: sanitize the
description (`cleanHtml(item.description || '')`), format the title
(`wrapTitle(item.title || 'No Title', item.link || '#')`), set the source
hash and the empty category. -/
def prettifyItem (item : RawDoc) (sourceHash : String) : ProcessedItem :=
  { guid := item.guid
    link := item.link
    pubDate := item.pubDate
    timestamp := item.timestamp
    description := cleanHtml (jsOrT item.description (some []))
    title := wrapTitle (jsOrStr item.title "No Title") (jsOrStr item.link "#")
    source := sourceHash
    category := "" }

/-! ## Conditional fetcher (`fetchFeed`, src/scripts/ingest-rss.js lines 56–69)

```js
async function fetchFeed(url, etag, lastModified) {
    const headers = {};
    if (etag) headers['If-None-Match'] = etag;
    if (lastModified) headers['If-Modified-Since'] = lastModified;
    try {
        const response = await fetch(url, { headers, signal: AbortSignal.timeout(15000) });
        if (response.status === 304) return { modified: false };
        if (!response.ok) throw new Error(`HTTP ${response.status}`);
        const xml = await response.text();
        return { modified: true, xml, etag: response.headers.get('etag'),
                 lastModified: response.headers.get('last-modified') };
    } catch (e) {
        return { modified: false, error: e.message };
    }
}
```

The network is the environment: an outcome is either a response (status,
body, caching headers) or a network error / timeout thrown by `fetch`. -/

/-- What the network did: a response arrived, or `fetch` itself threw
(connection error, abort by the 15s timeout, …). -/
inductive FetchOutcome where
  | response (status : Nat) (body : String) (etag lastModified : Option String)
  | networkError (msg : String)
  deriving Repr

/-- The result object `fetchFeed` resolves with. -/
structure FetchResult where
  modified : Bool
  xml : Option String
  etag : Option String
  lastModified : Option String
  error : Option String
  deriving DecidableEq, Repr

/-- The conditional request headers (`If-None-Match` / `If-Modified-Since`
are sent only for truthy stored validators). -/
def requestHeaders (etag lastModified : Option String) : List (String × String) :=
  (if truthyS etag then [("If-None-Match", etag.getD "")] else []) ++
  (if truthyS lastModified then [("If-Modified-Since", lastModified.getD "")] else [])

/-- The try-block of `fetchFeed`: a 304 resolves to a no-change result
without a body; a non-success status (`response.ok` is status 200–299)
throws `HTTP <status>`; otherwise the body and the response validators
are returned. -/
def fetchFeedEx : FetchOutcome → Except String FetchResult
  | .networkError msg => .error msg
  | .response status body etag lm =>
    if status = 304 then .ok ⟨false, none, none, none, none⟩
    else if 200 ≤ status ∧ status ≤ 299 then .ok ⟨true, some body, etag, lm, none⟩
    else .error ("HTTP " ++ toString status)

/-- `fetchFeed`: the catch clause converts every thrown error into
`{ modified: false, error: e.message }` — nothing propagates past it. -/
def fetchFeed (outcome : FetchOutcome) : FetchResult :=
  match fetchFeedEx outcome with
  | .ok r => r
  | .error e => ⟨false, none, none, none, some e⟩

/-! ## The per-source cycle of `main` (src/scripts/ingest-rss.js lines 77–119) -/

/-- One manifest entry `{ g: guid, h: itemHash }`. -/
structure ManifestEntry where
  g : String
  h : String
  deriving DecidableEq, Repr

/-- The per-run environment of one cycle: the network outcome, the feed
parser (`rss-parser`, library code), `Date.parse`, `Date.now()`, and —
for the object-storage backend — which uploads succeed. -/
structure Env where
  outcome : FetchOutcome
  parse : String → Except String (List FeedItem)
  dateParse : String → Option Int
  now : Int
  uploadOk : String → Bool

/-- The stored source metadata (`data/sources/<hash>.json`): the encoded
URL and the cache validators. -/
structure SourceMeta where
  u : String
  etag : Option String
  lastModified : Option String
  deriving DecidableEq, Repr

/-- Lookup in a keyed store (a directory or a bucket as an association
list). -/
def storeGet {α : Type} : List (String × α) → String → Option α
  | [], _ => none
  | (k', v) :: rest, k => if k' = k then some v else storeGet rest k

/-- `writeFileSync` / `PutObject` semantics: overwrite the value at the
key, or append the key. -/
def storePut {α : Type} : List (String × α) → String → α → List (String × α)
  | [], k, v => [(k, v)]
  | (k', v') :: rest, k, v =>
    if k' = k then (k, v) :: rest else (k', v') :: storePut rest k v

/-- The object literal of src/scripts/ingest-rss.js lines 100–107: body
precedence `contentEncoded || content || summary || description`,
timestamp `Date.parse(item.pubDate) || Date.now()`. -/
def rawDoc (env : Env) (it : FeedItem) (g : String) : RawDoc :=
  { guid := g
    title := it.title
    link := it.link
    pubDate := it.pubDate
    description := jsOrT it.contentEncoded (jsOrT it.content (jsOrT it.summary it.description))
    timestamp := jsOrNum (it.pubDate.bind env.dateParse) env.now }

/-- The item file path relative to the items root
(`items/<sourceHash>/<itemHash>.json`). -/
def itemKeyFs (sourceHash itemHash : String) : String :=
  sourceHash ++ "/" ++ itemHash ++ ".json"

/-- The persistent state the filesystem backend touches: the items tree,
the feeds (manifest) directory, and the source metadata file. -/
structure FsState where
  items : List (String × ProcessedItem)
  feeds : List (String × List ManifestEntry)
  source : SourceMeta
  deriving Repr

/-- The per-item loop of `main` (src/scripts/ingest-rss.js lines 93–110):
for each feed item, `guid = item.guid || item.link`, hash it, push the
manifest entry, and write the processed document only when no file exists
at its path.  A missing identifier makes `getHash(undefined)` throw; the
`false` flag models that exception (writes made so far remain). -/
def processItemsFs (env : Env) (sourceHash : String) :
    List FeedItem → List (String × ProcessedItem) → List ManifestEntry →
    List (String × ProcessedItem) × List ManifestEntry × Bool
  | [], store, man => (store, man, true)
  | it :: rest, store, man =>
    match jsOrS it.guid it.link with
    | none => (store, man, false)
    | some g =>
      let hsh := getHash g
      let man' := man ++ [⟨g, hsh⟩]
      let key := itemKeyFs sourceHash hsh
      let store' :=
        if (storeGet store key).isSome then store
        else storePut store key (prettifyItem (rawDoc env it g) sourceHash)
      processItemsFs env sourceHash rest store' man'

/-- One per-source cycle of `main` for the filesystem backend
(src/scripts/ingest-rss.js lines 86–118): on a modified fetch, parse,
process the items, overwrite the manifest, and update the validators
(`source.etag = result.etag || ""`); an unmodified or failed fetch, a
parse error, or an exception in the item loop leaves manifest and
metadata untouched. -/
def mainCycleFs (env : Env) (sourceHash : String) (st : FsState) : FsState :=
  let result := fetchFeed env.outcome
  if result.modified then
    match env.parse (result.xml.getD "") with
    | .error _ => st
    | .ok feedItems =>
      match processItemsFs env sourceHash feedItems st.items [] with
      | (store', _, false) => { st with items := store' }
      | (store', man, true) =>
        { items := store'
          feeds := storePut st.feeds (sourceHash ++ ".json") man
          source := { st.source with
                      etag := some (jsOrStr result.etag "")
                      lastModified := some (jsOrStr result.lastModified "") } }
  else st

/-- Classification of a cycle as a successful "modified" cycle: the fetch
returned new content, the feed parsed, and every item had an identifier
(so the item loop ran to completion). -/
def cycleOk (env : Env) : Bool :=
  let result := fetchFeed env.outcome
  result.modified &&
    match env.parse (result.xml.getD "") with
    | .error _ => false
    | .ok items => items.all (fun it => (jsOrS it.guid it.link).isSome)

/-- The manifest entry of one feed item, as `main` builds it. -/
def entryOf (it : FeedItem) : ManifestEntry :=
  let g := (jsOrS it.guid it.link).getD ""
  ⟨g, getHash g⟩

end Ingest

namespace R2

open Ingest

/-! ## The object-storage backend (second document of src/unnamed/part_000)

Shares `getHash`, `cleanHtml` and the fetcher with the filesystem
backend; its `wrapTitle` is the mojibake variant (part_000 lines
180–185, byte-identical to the first document's).  `uploadToR2` catches
its own errors (best-effort uploads), and there is no existence check
before an item upload. -/

/-- `prettifyItem` of the R2 document (part_000 lines 187–193): same as
the filesystem backend's, except that its `wrapTitle` splits on the
mojibake delimiter. -/
def prettifyItem (item : RawDoc) (sourceHash : String) : ProcessedItem :=
  { guid := item.guid
    link := item.link
    pubDate := item.pubDate
    timestamp := item.timestamp
    description := cleanHtml (jsOrT item.description (some []))
    title := Legacy.wrapTitle (jsOrStr item.title "No Title") (jsOrStr item.link "#")
    source := sourceHash
    category := "" }

/-- A stored bucket object: an item document or a manifest. -/
inductive StoredDoc where
  | item (d : ProcessedItem)
  | manifest (m : List ManifestEntry)
  deriving DecidableEq, Repr

/-- The bucket key of an item (`items/<sourceHash>/<itemHash>.json`). -/
def itemKey (sourceHash itemHash : String) : String :=
  "items/" ++ sourceHash ++ "/" ++ itemHash ++ ".json"

/-- The bucket key of a manifest (`feeds/<sourceHash>.json`). -/
def manifestKey (sourceHash : String) : String :=
  "feeds/" ++ sourceHash ++ ".json"

/-- The persistent state the R2 backend touches: the bucket and the local
source metadata file. -/
structure R2State where
  objects : List (String × StoredDoc)
  source : SourceMeta
  deriving Repr

/-- The per-item loop of the R2 `main` (part_000 lines 250–266): for each
feed item, hash the identifier, push the manifest entry, and dispatch an
unconditional upload of the processed document — there is no existence
check.  `env.uploadOk` tells which uploads succeed (`uploadToR2` catches
per-upload failures); a missing identifier makes `getHash(undefined)`
throw (`false` flag), with already-dispatched uploads still taking
effect. -/
def processItems (env : Env) (sourceHash : String) :
    List FeedItem → List (String × StoredDoc) → List ManifestEntry →
    List (String × StoredDoc) × List ManifestEntry × Bool
  | [], store, man => (store, man, true)
  | it :: rest, store, man =>
    match jsOrS it.guid it.link with
    | none => (store, man, false)
    | some g =>
      let hsh := getHash g
      let man' := man ++ [⟨g, hsh⟩]
      let key := itemKey sourceHash hsh
      let store' :=
        if env.uploadOk key then
          storePut store key (.item (prettifyItem (rawDoc env it g) sourceHash))
        else store
      processItems env sourceHash rest store' man'

/-- One per-source cycle of the R2 `main` (part_000 lines 241–280): on a
modified fetch, parse, dispatch the item uploads and the manifest upload,
await them, and update the local validators; an unmodified or failed
fetch, a parse error, or an exception in the loop leaves the metadata
untouched.  Upload failures are swallowed by `uploadToR2`, so the
metadata update happens even when individual uploads failed. -/
def mainCycle (env : Env) (sourceHash : String) (st : R2State) : R2State :=
  let result := fetchFeed env.outcome
  if result.modified then
    match env.parse (result.xml.getD "") with
    | .error _ => st
    | .ok feedItems =>
      match processItems env sourceHash feedItems st.objects [] with
      | (store', _, false) => { st with objects := store' }
      | (store', man, true) =>
        let mkey := manifestKey sourceHash
        let store'' :=
          if env.uploadOk mkey then storePut store' mkey (.manifest man) else store'
        { objects := store''
          source := { st.source with
                      etag := some (jsOrStr result.etag "")
                      lastModified := some (jsOrStr result.lastModified "") } }
  else st

end R2

namespace Ingest

/-- The concatenation of the `<h2>` renderings of a segment list. -/
def h2All (segs : List String) : String :=
  segs.foldr (fun s acc => h2Of s ++ acc) ""

/-- Substring test, via split: a non-empty pattern occurs in `s` iff
splitting on it yields more than one part. -/
def containsStr (s pat : String) : Bool :=
  (jsSplit s pat).length != 1

/-- The lowercase hexadecimal alphabet. -/
def hexLower : String := "0123456789abcdef"

end Ingest

/-! ## Concrete fixtures for witnesses and counterexamples -/

namespace Fixture

open Ingest

/-- A feed item with identifier `g1` and a `<p>` body. -/
def itemG1 : FeedItem :=
  { guid := some "g1", title := some "T", link := some "http://x/1",
    pubDate := some "pd",
    contentEncoded := none, content := none, summary := none,
    description := some [.tagOpen "p" [], .text "hi", .tagClose "p"] }

/-- An environment whose fetch succeeds with new content carrying fresh
validators, and whose feed parses to the single item `itemG1`. -/
def envMod : Env :=
  { outcome := .response 200 "xml" (some "E2") (some "L2")
    parse := fun s => if s = "xml" then .ok [itemG1] else .error "parse"
    dateParse := fun s => if s = "pd" then some 1700000000000 else none
    now := 123
    uploadOk := fun _ => true }

/-- An environment whose fetch succeeds with new content but whose
response advertises no caching headers. -/
def envNoHdr : Env :=
  { outcome := .response 200 "xml" none none
    parse := fun s => if s = "xml" then .ok [itemG1] else .error "parse"
    dateParse := fun _ => none
    now := 123
    uploadOk := fun _ => true }

/-- An environment whose fetch throws (network error / timeout). -/
def envFail : Env :=
  { outcome := .networkError "timeout"
    parse := fun _ => .error "unused"
    dateParse := fun _ => none
    now := 123
    uploadOk := fun _ => true }

/-- The item `g1` with a publish date that is exactly the Unix epoch. -/
def itemEpoch : FeedItem :=
  { itemG1 with pubDate := some "Thu, 01 Jan 1970 00:00:00 GMT" }

/-- An environment whose item has a publish date that parses to exactly
the epoch (`Date.parse` returns `0`). -/
def envEpoch : Env :=
  { outcome := .response 200 "xml" none none
    parse := fun s => if s = "xml" then .ok [itemEpoch] else .error "parse"
    dateParse := fun s => if s = "Thu, 01 Jan 1970 00:00:00 GMT" then some 0 else none
    now := 123
    uploadOk := fun _ => true }

/-- The document the epoch cycle persists for `itemEpoch`. -/
def docEpochNew : ProcessedItem :=
  Ingest.prettifyItem (Ingest.rawDoc envEpoch itemEpoch "g1") "s"

/-- Stored source metadata with prior validators. -/
def srcMeta0 : SourceMeta :=
  { u := "dXJs", etag := some "E1", lastModified := some "L1" }

/-- A filesystem state with an unrelated prior manifest and no items. -/
def fs0 : FsState :=
  { items := [], feeds := [("s.json", [⟨"old", "000000000000"⟩])], source := srcMeta0 }

/-- A previously persisted document for identifier `g1` (its content
differs from what the current feed entry would produce). -/
def docOld : ProcessedItem :=
  { guid := "g1", title := "OLD", link := none, pubDate := none,
    description := [], timestamp := 1, source := "s", category := "" }

/-- A bucket that already holds `docOld` at the key of `g1`. -/
def r2Old : R2.R2State :=
  { objects := [(R2.itemKey "s" (getHash "g1"), .item docOld)], source := srcMeta0 }

/-- An empty bucket. -/
def r2Empty : R2.R2State := { objects := [], source := srcMeta0 }

/-- The document the current cycle computes for `itemG1`. -/
def docNew : ProcessedItem := R2.prettifyItem (rawDoc envMod itemG1 "g1") "s"

/-- An item-object literal whose title is a script tag (disallowed
markup). -/
def rawScript : RawDoc :=
  { guid := "g", title := some "<script>alert(1)</script>", link := some "#",
    pubDate := none, description := none, timestamp := 0 }

/-- An HTML body holding a disallowed tag, an allowed anchor with an
allowed attribute, and character data. -/
def htmlW : Option (List HToken) :=
  some [.tagOpen "script" [], .tagOpen "a" [⟨"href", "x"⟩], .text "hi"]

/-- A filesystem state that already holds `docOld` at the key of `g1`. -/
def fsOld : FsState :=
  { items := [(Ingest.itemKeyFs "s" (getHash "g1"), docOld)], feeds := [], source := srcMeta0 }

end Fixture

/-! ## Helper lemmas -/

namespace Ingest

theorem storeGet_storePut_self {α : Type} (s : List (String × α)) (k : String) (v : α) :
    storeGet (storePut s k v) k = some v := by
  induction s with
  | nil => simp [storePut, storeGet]
  | cons hd tl ih =>
    obtain ⟨k', v'⟩ := hd
    by_cases hk : k' = k
    · simp [storePut, storeGet, hk]
    · simp [storePut, storeGet, hk, ih]

theorem storeGet_storePut_ne {α : Type} (s : List (String × α)) (k k' : String) (v : α)
    (h : k ≠ k') : storeGet (storePut s k v) k' = storeGet s k' := by
  induction s with
  | nil => simp [storePut, storeGet, h]
  | cons hd tl ih =>
    obtain ⟨k₀, v₀⟩ := hd
    by_cases hk : k₀ = k
    · simp [storePut, storeGet, hk, h]
    · simp [storePut, storeGet, hk, ih]

theorem splitFuel_ne_nil (sep : List Char) (fuel : Nat) (l acc : List Char) :
    splitFuel sep fuel l acc ≠ [] := by
  induction fuel generalizing l acc with
  | zero => simp [splitFuel]
  | succ n ih =>
    cases l with
    | nil => simp [splitFuel]
    | cons c rest =>
      simp only [splitFuel]
      split
      · simp [splitFuel_ne_nil]
      · exact ih rest (c :: acc)

theorem jsSplit_ne_nil (s sep : String) : jsSplit s sep ≠ [] := by
  simp [jsSplit, splitFuel_ne_nil]

theorem h2Loop_eq (segs : List String) (html : String) :
    h2Loop html segs = html ++ h2All segs := by
  induction segs generalizing html with
  | nil => simp [h2Loop, h2All]
  | cons s rest ih =>
    simp only [h2Loop, h2All, List.foldr] at *
    rw [ih, String.append_assoc]

theorem hexDigit_mem (n : Nat) (h : n < 16) : hexDigit n ∈ hexLower.data := by
  interval_cases n <;> decide

theorem byteHex_mem (b : Nat) (c : Char) (h : c ∈ byteHex b) : c ∈ hexLower.data := by
  simp only [byteHex, List.mem_cons, List.mem_singleton] at h
  rcases h with h | h | h
  · exact h ▸ hexDigit_mem _ (Nat.mod_lt _ (by norm_num))
  · exact h ▸ hexDigit_mem _ (Nat.mod_lt _ (by norm_num))
  · cases h

theorem hexChars_mem (bs : List Nat) (c : Char) (h : c ∈ hexChars bs) :
    c ∈ hexLower.data := by
  simp only [hexChars, List.mem_flatMap] at h
  obtain ⟨b, _, hc⟩ := h
  exact byteHex_mem b c hc

theorem hexChars_length (bs : List Nat) : (hexChars bs).length = 2 * bs.length := by
  induction bs with
  | nil => simp [hexChars]
  | cons b tl ih =>
    simp [hexChars, byteHex] at ih ⊢
    omega

theorem digestBytes_length (st : Hash8) : (digestBytes st).length = 32 := by
  simp [digestBytes, wordBytes]

theorem getHash_length (s : String) : (getHash s).length = 12 := by
  simp only [getHash, String.length_mk, List.length_take, sha256]
  rw [hexChars_length, digestBytes_length]
  omega

theorem getHash_chars (s : String) (c : Char) (h : c ∈ (getHash s).data) :
    c ∈ hexLower.data := by
  simp only [getHash] at h
  exact hexChars_mem _ c (List.take_subset 12 _ h)

theorem processItemsFs_preserves (env : Env) (sh : String) (items : List FeedItem)
    (store : List (String × ProcessedItem)) (man : List ManifestEntry)
    (k : String) (d : ProcessedItem) (h : storeGet store k = some d) :
    storeGet (processItemsFs env sh items store man).1 k = some d := by
  induction items generalizing store man with
  | nil => simpa [processItemsFs] using h
  | cons it rest ih =>
    simp only [processItemsFs]
    cases hg : jsOrS it.guid it.link with
    | none => simpa using h
    | some g =>
      simp only []
      apply ih
      by_cases hk : itemKeyFs sh (getHash g) = k
      · rw [hk] at *
        simp [h]
      · by_cases hpresent : (storeGet store (itemKeyFs sh (getHash g))).isSome
        · simpa [hpresent] using h
        · simpa [hpresent, storeGet_storePut_ne _ _ _ _ hk] using h

theorem processItemsFs_flag (env : Env) (sh : String) (items : List FeedItem)
    (store : List (String × ProcessedItem)) (man : List ManifestEntry) :
    (processItemsFs env sh items store man).2.2 =
      items.all (fun it => (jsOrS it.guid it.link).isSome) := by
  induction items generalizing store man with
  | nil => simp [processItemsFs]
  | cons it rest ih =>
    simp only [processItemsFs, List.all_cons]
    cases hg : jsOrS it.guid it.link with
    | none => simp
    | some g => simp [ih]

theorem processItemsFs_ok (env : Env) (sh : String) (items : List FeedItem)
    (h : items.all (fun it => (jsOrS it.guid it.link).isSome) = true) :
    ∀ store man, ∃ store',
      processItemsFs env sh items store man = (store', man ++ items.map entryOf, true) := by
  induction items with
  | nil => intro store man; exact ⟨store, by simp [processItemsFs]⟩
  | cons it rest ih =>
    intro store man
    simp only [List.all_cons, Bool.and_eq_true] at h
    obtain ⟨hhead, htail⟩ := h
    cases hg : jsOrS it.guid it.link with
    | none => rw [hg] at hhead; cases hhead
    | some g =>
      obtain ⟨store', hstore'⟩ := ih htail
        (if (storeGet store (itemKeyFs sh (getHash g))).isSome then store
         else storePut store (itemKeyFs sh (getHash g))
           (prettifyItem (rawDoc env it g) sh))
        (man ++ [⟨g, getHash g⟩])
      refine ⟨store', ?_⟩
      simp only [processItemsFs, hg, hstore', List.map_cons]
      have : entryOf it = ⟨g, getHash g⟩ := by simp [entryOf, hg]
      rw [this]
      simp

end Ingest

namespace R2

open Ingest

theorem processItems_flag (env : Env) (sh : String) (items : List FeedItem)
    (store : List (String × StoredDoc)) (man : List ManifestEntry) :
    (processItems env sh items store man).2.2 =
      items.all (fun it => (jsOrS it.guid it.link).isSome) := by
  induction items generalizing store man with
  | nil => simp [processItems]
  | cons it rest ih =>
    simp only [processItems, List.all_cons]
    cases hg : jsOrS it.guid it.link with
    | none => simp
    | some g => simp [ih]

theorem processItems_ok (env : Env) (sh : String) (items : List FeedItem)
    (h : items.all (fun it => (jsOrS it.guid it.link).isSome) = true) :
    ∀ store man, ∃ store',
      processItems env sh items store man = (store', man ++ items.map entryOf, true) := by
  induction items with
  | nil => intro store man; exact ⟨store, by simp [processItems]⟩
  | cons it rest ih =>
    intro store man
    simp only [List.all_cons, Bool.and_eq_true] at h
    obtain ⟨hhead, htail⟩ := h
    cases hg : jsOrS it.guid it.link with
    | none => rw [hg] at hhead; cases hhead
    | some g =>
      obtain ⟨store', hstore'⟩ := ih htail
        (if env.uploadOk (itemKey sh (getHash g)) then
          storePut store (itemKey sh (getHash g))
            (.item (prettifyItem (rawDoc env it g) sh))
         else store)
        (man ++ [⟨g, getHash g⟩])
      refine ⟨store', ?_⟩
      simp only [processItems, hg, hstore', List.map_cons]
      have : entryOf it = ⟨g, getHash g⟩ := by simp [entryOf, hg]
      rw [this]
      simp

theorem manifestKey_ne_itemKey (a b c : String) : manifestKey a ≠ itemKey b c := by
  intro h
  have := congrArg String.data h
  simp only [manifestKey, itemKey, String.data_append] at this
  simp [List.cons_append] at this

end R2

namespace Ingest

theorem mainCycleFs_source_frozen (env : Env) (sh : String) (st : FsState)
    (h : cycleOk env = false) : (mainCycleFs env sh st).source = st.source := by
  cases hm : (fetchFeed env.outcome).modified with
  | false => simp [mainCycleFs, hm]
  | true =>
    cases hp : env.parse ((fetchFeed env.outcome).xml.getD "") with
    | error e => simp [mainCycleFs, hm, hp]
    | ok items =>
      have hall : items.all (fun it => (jsOrS it.guid it.link).isSome) = false := by
        simpa [cycleOk, hm, hp] using h
      rcases hq : processItemsFs env sh items st.items [] with ⟨s', m', flag⟩
      have hflag : flag = false := by
        have hfl := processItemsFs_flag env sh items st.items []
        rw [hq, hall] at hfl
        exact hfl
      subst hflag
      simp [mainCycleFs, hm, hp, hq]

theorem mainCycleFs_items_preserved (env : Env) (sh : String) (st : FsState)
    (k : String) (d : ProcessedItem) (h : storeGet st.items k = some d) :
    storeGet (mainCycleFs env sh st).items k = some d := by
  cases hm : (fetchFeed env.outcome).modified with
  | false => simpa [mainCycleFs, hm] using h
  | true =>
    cases hp : env.parse ((fetchFeed env.outcome).xml.getD "") with
    | error e => simpa [mainCycleFs, hm, hp] using h
    | ok items =>
      rcases hq : processItemsFs env sh items st.items [] with ⟨s', m', flag⟩
      have hpres := processItemsFs_preserves env sh items st.items [] k d h
      rw [hq] at hpres
      cases flag <;> simpa [mainCycleFs, hm, hp, hq] using hpres

theorem mainCycleFs_manifest_set (env : Env) (sh : String) (st : FsState)
    (items : List FeedItem)
    (hm : (fetchFeed env.outcome).modified = true)
    (hp : env.parse ((fetchFeed env.outcome).xml.getD "") = .ok items)
    (hall : items.all (fun it => (jsOrS it.guid it.link).isSome) = true) :
    storeGet (mainCycleFs env sh st).feeds (sh ++ ".json") = some (items.map entryOf) := by
  obtain ⟨store', hq⟩ := processItemsFs_ok env sh items hall st.items []
  simp [mainCycleFs, hm, hp, hq, storeGet_storePut_self]

theorem mainCycleFs_source_set (env : Env) (sh : String) (st : FsState)
    (items : List FeedItem)
    (hm : (fetchFeed env.outcome).modified = true)
    (hp : env.parse ((fetchFeed env.outcome).xml.getD "") = .ok items)
    (hall : items.all (fun it => (jsOrS it.guid it.link).isSome) = true) :
    (mainCycleFs env sh st).source.etag = some (jsOrStr (fetchFeed env.outcome).etag "") ∧
    (mainCycleFs env sh st).source.lastModified =
      some (jsOrStr (fetchFeed env.outcome).lastModified "") := by
  obtain ⟨store', hq⟩ := processItemsFs_ok env sh items hall st.items []
  simp [mainCycleFs, hm, hp, hq]

/-- Splitting a `cycleOk` classification into its three components. -/
theorem cycleOk_elim (env : Env) (h : cycleOk env = true) :
    (fetchFeed env.outcome).modified = true ∧
    ∃ items, env.parse ((fetchFeed env.outcome).xml.getD "") = .ok items ∧
      items.all (fun it => (jsOrS it.guid it.link).isSome) = true := by
  cases hm : (fetchFeed env.outcome).modified with
  | false => rw [cycleOk, hm] at h; simp at h
  | true =>
    refine ⟨rfl, ?_⟩
    cases hp : env.parse ((fetchFeed env.outcome).xml.getD "") with
    | error e => rw [cycleOk, hm, hp] at h; simp at h
    | ok items =>
      rw [cycleOk, hm, hp] at h
      exact ⟨items, rfl, by simpa using h⟩

end Ingest

namespace R2

open Ingest

theorem mainCycle_source_frozen (env : Env) (sh : String) (st : R2State)
    (h : cycleOk env = false) : (mainCycle env sh st).source = st.source := by
  cases hm : (fetchFeed env.outcome).modified with
  | false => simp [mainCycle, hm]
  | true =>
    cases hp : env.parse ((fetchFeed env.outcome).xml.getD "") with
    | error e => simp [mainCycle, hm, hp]
    | ok items =>
      have hall : items.all (fun it => (jsOrS it.guid it.link).isSome) = false := by
        simpa [cycleOk, hm, hp] using h
      rcases hq : processItems env sh items st.objects [] with ⟨s', m', flag⟩
      have hflag : flag = false := by
        have hfl := processItems_flag env sh items st.objects []
        rw [hq, hall] at hfl
        exact hfl
      subst hflag
      simp [mainCycle, hm, hp, hq]

theorem mainCycle_source_set (env : Env) (sh : String) (st : R2State)
    (items : List FeedItem)
    (hm : (fetchFeed env.outcome).modified = true)
    (hp : env.parse ((fetchFeed env.outcome).xml.getD "") = .ok items)
    (hall : items.all (fun it => (jsOrS it.guid it.link).isSome) = true) :
    (mainCycle env sh st).source.etag = some (jsOrStr (fetchFeed env.outcome).etag "") ∧
    (mainCycle env sh st).source.lastModified =
      some (jsOrStr (fetchFeed env.outcome).lastModified "") := by
  obtain ⟨store', hq⟩ := processItems_ok env sh items hall st.objects []
  by_cases hmk : env.uploadOk (manifestKey sh) <;>
    simp [mainCycle, hm, hp, hq, hmk]

theorem mainCycle_item_uploaded (env : Env) (sh : String) (st : R2State)
    (it : FeedItem) (g : String)
    (hm : (fetchFeed env.outcome).modified = true)
    (hp : env.parse ((fetchFeed env.outcome).xml.getD "") = .ok [it])
    (hg : jsOrS it.guid it.link = some g)
    (hup : env.uploadOk (itemKey sh (getHash g)) = true) :
    storeGet (mainCycle env sh st).objects (itemKey sh (getHash g)) =
      some (.item (prettifyItem (rawDoc env it g) sh)) := by
  have hq : processItems env sh [it] st.objects [] =
      (storePut st.objects (itemKey sh (getHash g))
        (.item (prettifyItem (rawDoc env it g) sh)), [⟨g, getHash g⟩], true) := by
    simp [processItems, hg, hup]
  by_cases hmk : env.uploadOk (manifestKey sh)
  · simp [mainCycle, hm, hp, hq, hmk,
      storeGet_storePut_ne _ _ _ _ (manifestKey_ne_itemKey sh sh (getHash g)),
      storeGet_storePut_self]
  · simp [mainCycle, hm, hp, hq, hmk, storeGet_storePut_self]

end R2

namespace Ingest

/-- Every tag token surviving `sanitizeToks` has an allow-listed name and
only allow-listed attributes. -/
theorem mem_sanitizeToks (ts : List HToken) (tk : HToken) (h : tk ∈ sanitizeToks ts) :
    (∀ t attrs, tk = .tagOpen t attrs →
      t ∈ ALLOWED_TAGS ∧ ∀ ab ∈ attrs, ab.name ∈ allowedAttrsFor t) ∧
    (∀ t, tk = .tagClose t → t ∈ ALLOWED_TAGS) := by
  simp only [sanitizeToks, List.mem_filterMap] at h
  obtain ⟨a, _, hfa⟩ := h
  cases a with
  | text s =>
    simp only [Option.some.injEq] at hfa
    subst hfa
    exact ⟨fun t attrs heq => (nomatch heq), fun t heq => nomatch heq⟩
  | tagOpen t' attrs' =>
    by_cases ht : t' ∈ ALLOWED_TAGS
    · simp only [ht, if_true, Option.some.injEq] at hfa
      subst hfa
      refine ⟨fun t attrs heq => ?_, fun t heq => nomatch heq⟩
      cases heq
      refine ⟨ht, fun ab hab => ?_⟩
      have := List.mem_filter.mp hab
      simpa using this.2
    · simp [ht] at hfa
  | tagClose t' =>
    by_cases ht : t' ∈ ALLOWED_TAGS
    · simp only [ht, if_true, Option.some.injEq] at hfa
      subst hfa
      exact ⟨fun t attrs heq => (nomatch heq), fun t heq => by cases heq; exact ht⟩
    · simp [ht] at hfa

end Ingest

/-! ## The claims -/

set_option maxRecDepth 8192 in
/-- C1 counterexample: the object-storage backend does **not**
write-if-absent.  A bucket already holding `docOld` at the key of
identifier `g1`, after one modified cycle whose feed still contains
`g1`, holds the freshly computed document instead — the existing
document was altered. -/
theorem r2_overwrites_existing_item_cex :
    Ingest.storeGet Fixture.r2Old.objects (R2.itemKey "s" (Ingest.getHash "g1")) =
      some (.item Fixture.docOld) ∧
    Ingest.storeGet (R2.mainCycle Fixture.envMod "s" Fixture.r2Old).objects
      (R2.itemKey "s" (Ingest.getHash "g1")) = some (.item Fixture.docNew) ∧
    Fixture.docNew ≠ Fixture.docOld :=
  ⟨by decide, by decide, by decide⟩

/-- C1 (amended): the filesystem backend writes an item document only if
none exists at its key, and a document present before a cycle is intact
after it; the object-storage backend instead uploads the item document of
every entry of a modified fetch unconditionally, overwriting whatever is
at the key (when the upload succeeds). -/
theorem item_write_semantics_amended :
    (∀ (env : Ingest.Env) (sh : String) (st : Ingest.FsState) (k : String)
       (d : Ingest.ProcessedItem),
        Ingest.storeGet st.items k = some d →
        Ingest.storeGet (Ingest.mainCycleFs env sh st).items k = some d) ∧
    (∀ (env : Ingest.Env) (sh : String) (st : R2.R2State) (it : Ingest.FeedItem)
       (g : String),
        (Ingest.fetchFeed env.outcome).modified = true →
        env.parse ((Ingest.fetchFeed env.outcome).xml.getD "") = .ok [it] →
        Ingest.jsOrS it.guid it.link = some g →
        env.uploadOk (R2.itemKey sh (Ingest.getHash g)) = true →
        Ingest.storeGet (R2.mainCycle env sh st).objects (R2.itemKey sh (Ingest.getHash g)) =
          some (.item (R2.prettifyItem (Ingest.rawDoc env it g) sh))) :=
  ⟨fun env sh st k d h => Ingest.mainCycleFs_items_preserved env sh st k d h,
   fun env sh st it g hm hp hg hup => R2.mainCycle_item_uploaded env sh st it g hm hp hg hup⟩

/-- C1 witness: concrete instances — the filesystem cycle leaves the
pre-existing `docOld` in place although the fetched feed still lists
`g1`, and the R2 cycle deposits the computed document at the key of
`g1`. -/
theorem item_write_semantics_amended_witness :
    Ingest.storeGet (Ingest.mainCycleFs Fixture.envMod "s" Fixture.fsOld).items
      (Ingest.itemKeyFs "s" (Ingest.getHash "g1")) = some Fixture.docOld ∧
    Ingest.storeGet (R2.mainCycle Fixture.envMod "s" Fixture.r2Empty).objects
      (R2.itemKey "s" (Ingest.getHash "g1")) =
      some (.item (R2.prettifyItem (Ingest.rawDoc Fixture.envMod Fixture.itemG1 "g1") "s")) :=
  ⟨item_write_semantics_amended.1 Fixture.envMod "s" Fixture.fsOld
      (Ingest.itemKeyFs "s" (Ingest.getHash "g1")) Fixture.docOld (by decide),
   item_write_semantics_amended.2 Fixture.envMod "s" Fixture.r2Empty Fixture.itemG1 "g1"
      (by decide) rfl (by decide) (by decide)⟩

/-- C2 counterexample: the `wrapTitle` of src/unnamed/part_000 (lines
29–34) does not split on the em-dash delimiter `" — "`: the title
`"A — B — C"` yields a single `<h1>` holding the whole title and no
`<h2>` at all, not the claimed heading sequence. -/
theorem legacy_wrapTitle_no_emdash_split_cex :
    Legacy.wrapTitle "A — B — C" "http://x" =
      "<h1><a href=\"http://x\" target=\"_blank\">A — B — C</a></h1>" ∧
    Legacy.wrapTitle "A — B — C" "http://x" ≠
      "<h1><a href=\"http://x\" target=\"_blank\">A</a></h1><h2>B</h2><h2>C</h2>" :=
  ⟨by decide, by decide⟩

/-- C2 (amended): the formatter of src/scripts/ingest-rss.js splits on
the literal `" — "` and renders the first segment as an `<h1>` wrapping
an anchor to the link and each later segment as its own `<h2>` — in
particular the claimed output on `"A — B — C"`; the part_000 variants
split on the mojibake byte sequence `" â€” "` instead, with the same
rendering of the resulting segments. -/
theorem wrapTitle_formats_amended :
    (Ingest.wrapTitle "A — B — C" "http://x" =
      "<h1><a href=\"http://x\" target=\"_blank\">A</a></h1><h2>B</h2><h2>C</h2>") ∧
    (∀ title link first rest, Ingest.jsSplit title " — " = first :: rest →
      Ingest.wrapTitle title link = Ingest.h1Of link first ++ Ingest.h2All rest) ∧
    (∀ title link first rest, Ingest.jsSplit title " â€” " = first :: rest →
      Legacy.wrapTitle title link = Ingest.h1Of link first ++ Ingest.h2All rest) := by
  refine ⟨by decide, ?_, ?_⟩
  · intro title link first rest hsplit
    simp [Ingest.wrapTitle, hsplit, Ingest.h2Loop_eq]
  · intro title link first rest hsplit
    simp [Legacy.wrapTitle, hsplit, Ingest.h2Loop_eq]

/-- C2 witness: the split hypotheses instantiated on concrete titles, one
per delimiter variant. -/
theorem wrapTitle_formats_amended_witness :
    Ingest.wrapTitle "A — B" "l" = Ingest.h1Of "l" "A" ++ Ingest.h2All ["B"] ∧
    Legacy.wrapTitle "A â€” B" "l" = Ingest.h1Of "l" "A" ++ Ingest.h2All ["B"] :=
  ⟨wrapTitle_formats_amended.2.1 "A — B" "l" "A" ["B"] (by decide),
   wrapTitle_formats_amended.2.2 "A â€” B" "l" "A" ["B"] (by decide)⟩

/-- C3: when a cycle is not a successful "modified" cycle — the fetch
failed or was unmodified, the feed failed to parse, or the item loop
threw — the stored validators (etag and last-modified) after the run
equal the validators before the run, on both backends. -/
theorem validators_frozen_on_failure (env : Ingest.Env) (sh : String)
    (stF : Ingest.FsState) (stR : R2.R2State)
    (h : Ingest.cycleOk env = false) :
    (Ingest.mainCycleFs env sh stF).source = stF.source ∧
    (R2.mainCycle env sh stR).source = stR.source :=
  ⟨Ingest.mainCycleFs_source_frozen env sh stF h,
   R2.mainCycle_source_frozen env sh stR h⟩

/-- C3 witness: a timed-out fetch leaves the metadata of both backends
exactly as it was. -/
theorem validators_frozen_on_failure_witness :
    (Ingest.mainCycleFs Fixture.envFail "s" Fixture.fs0).source = Fixture.fs0.source ∧
    (R2.mainCycle Fixture.envFail "s" Fixture.r2Old).source = Fixture.r2Old.source :=
  validators_frozen_on_failure Fixture.envFail "s" Fixture.fs0 Fixture.r2Old (by decide)

/-- C4: sanitization closure — for every input, no tag outside
`ALLOWED_TAGS` and no attribute outside the per-tag allow-list survives
`cleanHtml`, and absent (`undefined`) or empty input yields empty
output. -/
theorem cleanHtml_allowlist_closure (html : Option (List Ingest.HToken)) :
    (∀ t attrs, t ∉ Ingest.ALLOWED_TAGS →
       Ingest.HToken.tagOpen t attrs ∉ Ingest.cleanHtml html) ∧
    (∀ t, t ∉ Ingest.ALLOWED_TAGS → Ingest.HToken.tagClose t ∉ Ingest.cleanHtml html) ∧
    (∀ t attrs, Ingest.HToken.tagOpen t attrs ∈ Ingest.cleanHtml html →
       t ∈ Ingest.ALLOWED_TAGS ∧ ∀ ab ∈ attrs, ab.name ∈ Ingest.allowedAttrsFor t) ∧
    Ingest.cleanHtml none = [] ∧ Ingest.cleanHtml (some []) = [] := by
  have key : ∀ tk ∈ Ingest.cleanHtml html,
      (∀ t attrs, tk = .tagOpen t attrs →
        t ∈ Ingest.ALLOWED_TAGS ∧ ∀ ab ∈ attrs, ab.name ∈ Ingest.allowedAttrsFor t) ∧
      (∀ t, tk = .tagClose t → t ∈ Ingest.ALLOWED_TAGS) := by
    intro tk htk
    cases html with
    | none => simp [Ingest.cleanHtml] at htk
    | some ts =>
      by_cases hts : ts.isEmpty
      · simp [Ingest.cleanHtml, hts] at htk
      · rw [Ingest.cleanHtml] at htk
        simp only [hts, if_false] at htk
        exact Ingest.mem_sanitizeToks ts tk htk
  refine ⟨?_, ?_, ?_, rfl, rfl⟩
  · intro t attrs ht hmem
    exact ht ((key _ hmem).1 t attrs rfl).1
  · intro t ht hmem
    exact ht ((key _ hmem).2 t rfl)
  · intro t attrs hmem
    exact (key _ hmem).1 t attrs rfl

/-- C4 witness: on a concrete body, the `<script>` tag is gone from the
output while the kept anchor carries only its allow-listed `href`. -/
theorem cleanHtml_allowlist_closure_witness :
    Ingest.HToken.tagOpen "script" [] ∉ Ingest.cleanHtml Fixture.htmlW ∧
    ("a" ∈ Ingest.ALLOWED_TAGS ∧
      ∀ ab ∈ [Ingest.Attr.mk "href" "x"], ab.name ∈ Ingest.allowedAttrsFor "a") :=
  ⟨(cleanHtml_allowlist_closure Fixture.htmlW).1 "script" [] (by decide),
   (cleanHtml_allowlist_closure Fixture.htmlW).2.2.1 "a" [⟨"href", "x"⟩] (by decide)⟩

/-- C5: `getHash` is a function of its input (equal identifiers give
equal keys, in and across runs), and its value is always exactly 12
characters drawn from the lowercase hexadecimal alphabet. -/
theorem getHash_deterministic_hex12 (s t : String) :
    (s = t → Ingest.getHash s = Ingest.getHash t) ∧
    (Ingest.getHash s).length = 12 ∧
    (∀ c ∈ (Ingest.getHash s).data, c ∈ Ingest.hexLower.data) :=
  ⟨fun h => h ▸ rfl, Ingest.getHash_length s, fun c hc => Ingest.getHash_chars s c hc⟩

/-- C5 witness: the key of the identifier `g1`. -/
theorem getHash_deterministic_hex12_witness :
    Ingest.getHash "g1" = Ingest.getHash "g1" ∧ (Ingest.getHash "g1").length = 12 :=
  ⟨(getHash_deterministic_hex12 "g1" "g1").1 rfl,
   (getHash_deterministic_hex12 "g1" "g1").2.1⟩

/-- C6: the fetcher never raises past its boundary — a 304 yields a
no-change result with no body, a network error or timeout yields a
no-change result carrying the message, a non-success status yields a
no-change result carrying `HTTP <status>`, and in general every error of
the try-block is converted by the catch clause, never propagated. -/
theorem fetchFeed_never_raises (o : Ingest.FetchOutcome) :
    (∀ body etag lm, o = .response 304 body etag lm →
       Ingest.fetchFeed o = ⟨false, none, none, none, none⟩) ∧
    (∀ msg, o = .networkError msg →
       Ingest.fetchFeed o = ⟨false, none, none, none, some msg⟩) ∧
    (∀ status body etag lm, o = .response status body etag lm →
       status ≠ 304 → ¬(200 ≤ status ∧ status ≤ 299) →
       Ingest.fetchFeed o = ⟨false, none, none, none, some ("HTTP " ++ toString status)⟩) ∧
    (∀ e, Ingest.fetchFeedEx o = .error e →
       Ingest.fetchFeed o = ⟨false, none, none, none, some e⟩) := by
  refine ⟨?_, ?_, ?_, ?_⟩
  · intro body etag lm heq
    subst heq
    simp [Ingest.fetchFeed, Ingest.fetchFeedEx]
  · intro msg heq
    subst heq
    simp [Ingest.fetchFeed, Ingest.fetchFeedEx]
  · intro status body etag lm heq h304 hok
    subst heq
    simp [Ingest.fetchFeed, Ingest.fetchFeedEx, h304, hok]
  · intro e herr
    simp [Ingest.fetchFeed, herr]

/-- C6 witness: a timeout, a 304 and a 500 each produce a no-change
result. -/
theorem fetchFeed_never_raises_witness :
    Ingest.fetchFeed (.networkError "timeout") = ⟨false, none, none, none, some "timeout"⟩ ∧
    Ingest.fetchFeed (.response 304 "b" (some "e") none) = ⟨false, none, none, none, none⟩ ∧
    Ingest.fetchFeed (.response 500 "b" none none) =
      ⟨false, none, none, none, some ("HTTP " ++ toString 500)⟩ :=
  ⟨(fetchFeed_never_raises _).2.1 "timeout" rfl,
   (fetchFeed_never_raises _).1 "b" (some "e") none rfl,
   (fetchFeed_never_raises _).2.2.1 500 "b" none none rfl (by decide) (by decide)⟩

/-- C7: after a successful "modified" cycle, the stored manifest for the
source is exactly one entry (identifier, hash) per item of the fetched
payload, in feed order — independent of whatever manifest was stored
before, so no earlier entry survives unless its item is in the current
payload. -/
theorem manifest_exact_replacement (env : Ingest.Env) (sh : String) (st : Ingest.FsState)
    (h : Ingest.cycleOk env = true) :
    ∃ items, env.parse ((Ingest.fetchFeed env.outcome).xml.getD "") = .ok items ∧
      Ingest.storeGet (Ingest.mainCycleFs env sh st).feeds (sh ++ ".json") =
        some (items.map Ingest.entryOf) := by
  obtain ⟨hm, items, hp, hall⟩ := Ingest.cycleOk_elim env h
  exact ⟨items, hp, Ingest.mainCycleFs_manifest_set env sh st items hm hp hall⟩

/-- C7 witness: a modified cycle over a prior, different manifest ends
with exactly the one entry of the fetched item. -/
theorem manifest_exact_replacement_witness :
    ∃ items, Fixture.envMod.parse ((Ingest.fetchFeed Fixture.envMod.outcome).xml.getD "") =
        .ok items ∧
      Ingest.storeGet (Ingest.mainCycleFs Fixture.envMod "s" Fixture.fs0).feeds ("s" ++ ".json") =
        some (items.map Ingest.entryOf) :=
  manifest_exact_replacement Fixture.envMod "s" Fixture.fs0 (by decide)

/-- C8 counterexample: a publish date that parses to exactly `0` (the
Unix epoch) is parseable, yet the persisted timestamp is the current
time, because `Date.parse(pubDate) || Date.now()` treats `0` as falsy. -/
theorem timestamp_epoch_fallback_cex :
    Fixture.envEpoch.dateParse "Thu, 01 Jan 1970 00:00:00 GMT" = some 0 ∧
    Ingest.storeGet (Ingest.mainCycleFs Fixture.envEpoch "s" Fixture.fs0).items
      (Ingest.itemKeyFs "s" (Ingest.getHash "g1")) = some Fixture.docEpochNew ∧
    Fixture.docEpochNew.timestamp = (123 : Int) ∧ Fixture.envEpoch.now = (123 : Int) ∧
    (123 : Int) ≠ 0 :=
  ⟨by decide, by decide, by decide, by decide, by decide⟩

/-- C8 (amended): the persisted timestamp equals the epoch-milliseconds
parse of the publish date whenever that parse is a nonzero number, and
equals the current time when the date is unparseable **or** parses to
exactly `0`. -/
theorem timestamp_semantics_amended (env : Ingest.Env) (sh : String) (st : Ingest.FsState)
    (it : Ingest.FeedItem) (g : String)
    (hm : (Ingest.fetchFeed env.outcome).modified = true)
    (hp : env.parse ((Ingest.fetchFeed env.outcome).xml.getD "") = .ok [it])
    (hg : Ingest.jsOrS it.guid it.link = some g)
    (habsent : Ingest.storeGet st.items (Ingest.itemKeyFs sh (Ingest.getHash g)) = none) :
    Ingest.storeGet (Ingest.mainCycleFs env sh st).items
      (Ingest.itemKeyFs sh (Ingest.getHash g)) =
        some (Ingest.prettifyItem (Ingest.rawDoc env it g) sh) ∧
    ((it.pubDate.bind env.dateParse = none ∨ it.pubDate.bind env.dateParse = some 0) →
      (Ingest.prettifyItem (Ingest.rawDoc env it g) sh).timestamp = env.now) ∧
    (∀ v, it.pubDate.bind env.dateParse = some v → v ≠ 0 →
      (Ingest.prettifyItem (Ingest.rawDoc env it g) sh).timestamp = v) := by
  refine ⟨?_, ?_, ?_⟩
  · have hq : Ingest.processItemsFs env sh [it] st.items [] =
        (Ingest.storePut st.items (Ingest.itemKeyFs sh (Ingest.getHash g))
          (Ingest.prettifyItem (Ingest.rawDoc env it g) sh),
         [⟨g, Ingest.getHash g⟩], true) := by
      simp [Ingest.processItemsFs, hg, habsent]
    simp [Ingest.mainCycleFs, hm, hp, hq, Ingest.storeGet_storePut_self]
  · intro hcase
    rcases hcase with hnone | hzero
    · simp [Ingest.prettifyItem, Ingest.rawDoc, Ingest.jsOrNum, hnone]
    · simp [Ingest.prettifyItem, Ingest.rawDoc, Ingest.jsOrNum, hzero]
  · intro v hv hvne
    simp [Ingest.prettifyItem, Ingest.rawDoc, Ingest.jsOrNum, hv, hvne]

/-- C8 witness: the epoch-date cycle instantiated concretely (the stored
document's timestamp is the current time, 123). -/
theorem timestamp_semantics_amended_witness :
    Ingest.storeGet (Ingest.mainCycleFs Fixture.envEpoch "s" Fixture.fs0).items
      (Ingest.itemKeyFs "s" (Ingest.getHash "g1")) =
        some (Ingest.prettifyItem
          (Ingest.rawDoc Fixture.envEpoch Fixture.itemEpoch "g1") "s") ∧
    (Ingest.prettifyItem (Ingest.rawDoc Fixture.envEpoch Fixture.itemEpoch "g1") "s").timestamp =
      Fixture.envEpoch.now := by
  have h := timestamp_semantics_amended Fixture.envEpoch "s" Fixture.fs0 Fixture.itemEpoch "g1"
    (by decide) rfl (by decide) (by decide)
  exact ⟨h.1, h.2.1 (by decide)⟩

/-- C9: the formatted title is never sanitized — `prettifyItem` applies
`cleanHtml` to the description field only, while the title is the raw
interpolation of `wrapTitle`; concretely, a title that is a `<script>`
tag survives verbatim into the persisted title field. -/
theorem title_bypasses_sanitizer :
    (∀ (item : Ingest.RawDoc) (sh : String),
        (Ingest.prettifyItem item sh).description =
          Ingest.cleanHtml (Ingest.jsOrT item.description (some [])) ∧
        (Ingest.prettifyItem item sh).title =
          Ingest.wrapTitle (Ingest.jsOrStr item.title "No Title")
            (Ingest.jsOrStr item.link "#") ∧
        (Ingest.prettifyItem item sh).guid = item.guid ∧
        (Ingest.prettifyItem item sh).timestamp = item.timestamp) ∧
    (Ingest.prettifyItem Fixture.rawScript "s").title =
      "<h1><a href=\"#\" target=\"_blank\"><script>alert(1)</script></a></h1>" ∧
    Ingest.containsStr (Ingest.prettifyItem Fixture.rawScript "s").title "<script>" = true :=
  ⟨fun item sh => ⟨rfl, rfl, rfl, rfl⟩, by decide, by decide⟩

/-- C10: on a successful "modified" cycle, both backends store exactly
the response's validators, substituting the empty string for a header
the response did not advertise — so a modified response with no caching
headers erases previously stored validators. -/
theorem validators_set_from_response (env : Ingest.Env) (sh : String)
    (stF : Ingest.FsState) (stR : R2.R2State) (h : Ingest.cycleOk env = true) :
    ((Ingest.mainCycleFs env sh stF).source.etag =
        some (Ingest.jsOrStr (Ingest.fetchFeed env.outcome).etag "") ∧
     (Ingest.mainCycleFs env sh stF).source.lastModified =
        some (Ingest.jsOrStr (Ingest.fetchFeed env.outcome).lastModified "")) ∧
    ((R2.mainCycle env sh stR).source.etag =
        some (Ingest.jsOrStr (Ingest.fetchFeed env.outcome).etag "") ∧
     (R2.mainCycle env sh stR).source.lastModified =
        some (Ingest.jsOrStr (Ingest.fetchFeed env.outcome).lastModified "")) := by
  obtain ⟨hm, items, hp, hall⟩ := Ingest.cycleOk_elim env h
  exact ⟨Ingest.mainCycleFs_source_set env sh stF items hm hp hall,
         R2.mainCycle_source_set env sh stR items hm hp hall⟩

/-- C10 witness: a modified response with no caching headers replaces the
previously stored validators `E1`/`L1` with empty strings on both
backends. -/
theorem validators_set_from_response_witness :
    (Ingest.mainCycleFs Fixture.envNoHdr "s" Fixture.fs0).source.etag = some "" ∧
    (R2.mainCycle Fixture.envNoHdr "s" Fixture.r2Empty).source.etag = some "" ∧
    Fixture.fs0.source.etag = some "E1" := by
  have h := validators_set_from_response Fixture.envNoHdr "s" Fixture.fs0 Fixture.r2Empty
    (by decide)
  exact ⟨h.1.1, h.2.1, rfl⟩

/-- Validation of the SHA-256 embedding against the standard test
vectors for the empty string and `"abc"` (FIPS 180-4 appendix), truncated
to the 12 characters `getHash` keeps. -/
theorem getHash_test_vectors :
    Ingest.getHash "" = "e3b0c44298fc" ∧ Ingest.getHash "abc" = "ba7816bf8f01" :=
  ⟨by decide, by decide⟩

/-- Validation of the split embedding on the delimiter of the title
formatter. -/
theorem jsSplit_emdash :
    Ingest.jsSplit "A — B — C" " — " = ["A", "B", "C"] := by decide
